import Mathlib

/-
Verification of the Bend 2025 travel-guide core logic (src/src/App.jsx).
The repository carries two revisions of App.jsx in one file; we embed the
relevant functions of both.  Records are stored and compared but never
arithmetically combined, so coordinates are carried as an opaque pair of
integers.  JS strings are modelled as Lean strings; toLowerCase is modelled
characterwise; String.prototype.includes is modelled by an explicit
substring scan (containsChars below).
-/

/-- The category field of a stored record: the earlier revision stores a
single string, the later revision stores an array of strings.  The code
normalises with an isArray test, modelled by catList. -/
inductive CatField where
  | single (c : String)
  | multi (cs : List String)
deriving DecidableEq, Repr

/-- Normalisation used by the later revision:
Array.isArray(location.category) ? location.category : [location.category]. -/
def catList : CatField → List String
  | CatField.single c => [c]
  | CatField.multi cs => cs

/-- A point-of-interest record as stored in the locations collection. -/
structure LocationRecord where
  id : Nat
  position : Int × Int
  name : String
  description : String
  category : CatField
  emoji : String
deriving DecidableEq, Repr

/-- Model of s.startsWith-style prefix test on character lists. -/
def startsWithChars : List Char → List Char → Bool
  | _, [] => true
  | [], _ :: _ => false
  | a :: as, b :: bs => (a == b) && startsWithChars as bs

/-- Model of JS String.prototype.includes on character lists: scans for an
occurrence of the needle anywhere in the haystack. -/
def containsChars : List Char → List Char → Bool
  | [], needle => needle.isEmpty
  | a :: as, needle => startsWithChars (a :: as) needle || containsChars as needle

/-- Model of JS toLowerCase, applied characterwise. -/
def jsToLower (s : String) : String := String.mk (s.data.map Char.toLower)

/-- hay.includes(needle). -/
def jsIncludes (hay needle : String) : Bool := containsChars hay.data needle.data

/-- Text dimension of filteredLocations (same in both revisions):
location.name.toLowerCase().includes(searchTerm.toLowerCase()) ||
location.description.toLowerCase().includes(searchTerm.toLowerCase()). -/
def matchesSearch (loc : LocationRecord) (searchTerm : String) : Bool :=
  jsIncludes (jsToLower loc.name) (jsToLower searchTerm) ||
  jsIncludes (jsToLower loc.description) (jsToLower searchTerm)

/-- Category dimension of filteredLocations, later revision:
selectedCategories.size === 0 || categories.some(cat => selectedCategories.has(cat)).
The JS Set of selected categories is modelled by the list of its elements. -/
def matchesCategory (loc : LocationRecord) (selectedCategories : List String) : Bool :=
  selectedCategories.isEmpty ||
  (catList loc.category).any (fun cat => selectedCategories.contains cat)

/-- The filteredLocations derivation of the later revision (App.jsx lines
953-960): locations.filter(matchesSearch && matchesCategory). -/
def filteredLocations (locations : List LocationRecord)
    (searchTerm : String) (selectedCategories : List String) : List LocationRecord :=
  locations.filter (fun loc => matchesSearch loc searchTerm && matchesCategory loc selectedCategories)

/-- Spec-side notion for claim C1, written from the words of the spec:
needle occurs as a contiguous substring of hay. -/
def substrOf (needle hay : String) : Prop :=
  ∃ pre post, hay.data = pre ++ (needle.data ++ post)

/-- Spec-side pass predicate for claim C1, written from the words of the
spec: a case-insensitive substring match of the search term against name or
description, AND (selected set empty, or the intersection of the record
category set with the selected set non-empty). -/
def specPass (loc : LocationRecord) (searchTerm : String) (selectedCategories : List String) : Prop :=
  (substrOf (jsToLower searchTerm) (jsToLower loc.name) ∨
     substrOf (jsToLower searchTerm) (jsToLower loc.description))
  ∧ (selectedCategories = [] ∨ ∃ c, c ∈ catList loc.category ∧ c ∈ selectedCategories)

lemma startsWithChars_iff (needle : List Char) : ∀ hay : List Char,
    startsWithChars hay needle = true ↔ ∃ rest, hay = needle ++ rest := by
  induction needle with
  | nil =>
    intro hay
    constructor
    · intro _; exact ⟨hay, rfl⟩
    · intro _; cases hay <;> rfl
  | cons b bs ih =>
    intro hay
    cases hay with
    | nil =>
      simp [startsWithChars]
    | cons a as =>
      simp only [startsWithChars, Bool.and_eq_true, beq_iff_eq, ih as, List.cons_append,
        List.cons.injEq]
      constructor
      · rintro ⟨hab, rest, hrest⟩; exact ⟨rest, hab, hrest⟩
      · rintro ⟨rest, hab, hrest⟩; exact ⟨hab, rest, hrest⟩

lemma containsChars_iff (needle : List Char) : ∀ hay : List Char,
    containsChars hay needle = true ↔ ∃ pre post, hay = pre ++ (needle ++ post) := by
  intro hay
  induction hay with
  | nil =>
    simp only [containsChars, List.isEmpty_iff]
    constructor
    · rintro rfl; exact ⟨[], [], rfl⟩
    · rintro ⟨pre, post, h⟩
      rcases List.append_eq_nil.mp h.symm with ⟨-, h2⟩
      exact (List.append_eq_nil.mp h2).1
  | cons a as ih =>
    simp only [containsChars, Bool.or_eq_true, startsWithChars_iff, ih]
    constructor
    · rintro (⟨rest, hrest⟩ | ⟨pre, post, hpp⟩)
      · exact ⟨[], rest, by simpa using hrest⟩
      · exact ⟨a :: pre, post, by simp [hpp]⟩
    · rintro ⟨pre, post, hpp⟩
      cases pre with
      | nil => exact Or.inl ⟨post, by simpa using hpp⟩
      | cons p ps =>
        refine Or.inr ⟨ps, post, ?_⟩
        have h : a = p ∧ as = ps ++ (needle ++ post) := by simpa using hpp
        exact h.2

lemma jsIncludes_iff (hay needle : String) :
    jsIncludes hay needle = true ↔ substrOf needle hay := by
  simpa [jsIncludes, substrOf] using containsChars_iff needle.data hay.data

lemma matchesSearch_iff (loc : LocationRecord) (term : String) :
    matchesSearch loc term = true ↔
      (substrOf (jsToLower term) (jsToLower loc.name) ∨
        substrOf (jsToLower term) (jsToLower loc.description)) := by
  simp [matchesSearch, Bool.or_eq_true, jsIncludes_iff]

lemma matchesCategory_iff (loc : LocationRecord) (sel : List String) :
    matchesCategory loc sel = true ↔
      (sel = [] ∨ ∃ c, c ∈ catList loc.category ∧ c ∈ sel) := by
  simp [matchesCategory, Bool.or_eq_true, List.isEmpty_iff, List.any_eq_true]

/-- C1.  For every collection, search term, and set of selected categories,
the filter returns exactly those records that satisfy both dimensions: a
case-insensitive substring match of the search term against the record name
or description, AND a category pass, where a record passes the category
dimension iff the selected set is empty or the intersection of the record
category set with the selected set is non-empty. -/
theorem filteredLocations_mem_iff_specPass
    (locations : List LocationRecord) (searchTerm : String)
    (selectedCategories : List String) (loc : LocationRecord) :
    loc ∈ filteredLocations locations searchTerm selectedCategories ↔
      loc ∈ locations ∧ specPass loc searchTerm selectedCategories := by
  simp only [filteredLocations, List.mem_filter, Bool.and_eq_true, specPass,
    matchesSearch_iff, matchesCategory_iff]

/-- C9.  The filter is a pure function of its three inputs: the embedding is
a total Lean function, so it has no side effects and two runs on equal
inputs produce equal outputs (second conjunct), and its output preserves the
relative order of the input collection, being a sublist (subsequence) of it
(first conjunct). -/
theorem filteredLocations_pure_sublist_deterministic :
    (∀ (locations : List LocationRecord) (searchTerm : String)
        (selectedCategories : List String),
      List.Sublist (filteredLocations locations searchTerm selectedCategories) locations)
    ∧ (∀ (l₁ l₂ : List LocationRecord) (t₁ t₂ : String) (s₁ s₂ : List String),
        l₁ = l₂ → t₁ = t₂ → s₁ = s₂ →
        filteredLocations l₁ t₁ s₁ = filteredLocations l₂ t₂ s₂) := by
  constructor
  · intro locations searchTerm selectedCategories
    exact List.filter_sublist locations
  · intro l₁ l₂ t₁ t₂ s₁ s₂ hl ht hs
    rw [hl, ht, hs]

/-- A sample stored record used to instantiate hypothesis-bearing theorems. -/
def demoLoc : LocationRecord :=
  { id := 1, position := (44, -121), name := "Cafe", description := "Nice coffee",
    category := CatField.multi ["Food"], emoji := "☕" }

/-- Witness for C9: the theorem applied at a concrete collection. -/
theorem filteredLocations_pure_witness :
    List.Sublist (filteredLocations [demoLoc] "" []) [demoLoc]
    ∧ filteredLocations [demoLoc] "" [] = filteredLocations [demoLoc] "" [] :=
  ⟨filteredLocations_pure_sublist_deterministic.1 [demoLoc] "" [],
   filteredLocations_pure_sublist_deterministic.2 [demoLoc] [demoLoc] "" "" [] [] rfl rfl rfl⟩

/-- Model of JS Array.prototype.findIndex specialised to the id test used by
the later-revision handleLocationUpdate. -/
def findIndexById (targetId : Nat) : List LocationRecord → Option Nat
  | [] => none
  | loc :: rest =>
    if loc.id == targetId then some 0 else (findIndexById targetId rest).map (· + 1)

/-- handleLocationUpdate of the later revision (App.jsx lines 923-936):
findIndex on id; on a hit the entry is overwritten in a copy of the array;
on a miss the updated record is appended (upsert). -/
def handleLocationUpdate (locations : List LocationRecord)
    (updatedLocation : LocationRecord) : List LocationRecord :=
  match findIndexById updatedLocation.id locations with
  | some i => locations.set i updatedLocation
  | none => locations ++ [updatedLocation]

/-- handleLocationUpdate of the earlier revision (App.jsx lines 155-161):
map replacing the record whose id matches; a miss leaves the collection
unchanged (strict replace-only). -/
def handleLocationUpdateEarly (locations : List LocationRecord)
    (updatedLocation : LocationRecord) : List LocationRecord :=
  locations.map (fun loc => if loc.id == updatedLocation.id then updatedLocation else loc)

/-- handleLocationDelete (both revisions): keep the records whose id differs
from the deleted id. -/
def handleLocationDelete (locations : List LocationRecord) (id : Nat) : List LocationRecord :=
  locations.filter (fun loc => loc.id != id)

/-- The record built by handleMapClick in the earlier revision (App.jsx
lines 139-153), with t the value of Date.now() at the click. -/
def mkNewLocationEarly (t : Nat) (pos : Int × Int) : LocationRecord :=
  { id := t, position := pos, name := "", description := "",
    category := CatField.single "Food", emoji := "📍" }

/-- The record built by handleMapClick in the later revision (App.jsx lines
899-916). -/
def mkNewLocation (t : Nat) (pos : Int × Int) : LocationRecord :=
  { id := t, position := pos, name := "", description := "",
    category := CatField.multi ["Food"], emoji := "📍" }

/-- The append performed by setLocations([...locations, newLocation]) in the
earlier-revision handleMapClick. -/
def handleMapClickEarly (locations : List LocationRecord)
    (newLocation : LocationRecord) : List LocationRecord :=
  locations ++ [newLocation]

lemma handleLocationUpdate_cons (l : LocationRecord) (ls : List LocationRecord)
    (u : LocationRecord) :
    handleLocationUpdate (l :: ls) u =
      if l.id = u.id then u :: ls else l :: handleLocationUpdate ls u := by
  by_cases h : l.id = u.id
  · simp [handleLocationUpdate, findIndexById, h]
  · have hb : (l.id == u.id) = false := beq_eq_false_iff_ne.mpr h
    rw [if_neg h]
    cases hfi : findIndexById u.id ls with
    | none => simp [handleLocationUpdate, findIndexById, hb, hfi]
    | some i => simp [handleLocationUpdate, findIndexById, hb, hfi]

lemma update_missing (locations : List LocationRecord) (u : LocationRecord)
    (h : ∀ loc ∈ locations, loc.id ≠ u.id) :
    handleLocationUpdate locations u = locations ++ [u] := by
  induction locations with
  | nil => rfl
  | cons l ls ih =>
    rw [handleLocationUpdate_cons, if_neg (h l (List.mem_cons_self l ls)),
      ih (fun loc hm => h loc (List.mem_cons_of_mem l hm))]
    rfl

lemma updateEarly_missing (locations : List LocationRecord) (u : LocationRecord)
    (h : ∀ loc ∈ locations, loc.id ≠ u.id) :
    handleLocationUpdateEarly locations u = locations := by
  induction locations with
  | nil => rfl
  | cons l ls ih =>
    have hb : (l.id == u.id) = false :=
      beq_eq_false_iff_ne.mpr (h l (List.mem_cons_self l ls))
    simp only [handleLocationUpdateEarly, List.map_cons, hb, Bool.false_eq_true, if_false]
    rw [show ls.map (fun loc => if loc.id == u.id then u else loc) =
          handleLocationUpdateEarly ls u from rfl,
      ih (fun loc hm => h loc (List.mem_cons_of_mem l hm))]

lemma exists_match_tail {l : LocationRecord} {ls : List LocationRecord} {u : LocationRecord}
    (h : ∃ loc ∈ l :: ls, loc.id = u.id) (hl : l.id ≠ u.id) :
    ∃ loc ∈ ls, loc.id = u.id := by
  rcases h with ⟨loc, hm, hid⟩
  rcases List.mem_cons.mp hm with rfl | hm2
  · exact absurd hid hl
  · exact ⟨loc, hm2, hid⟩

lemma update_matched (locations : List LocationRecord) (u : LocationRecord)
    (h : ∃ loc ∈ locations, loc.id = u.id) :
    (handleLocationUpdate locations u).length = locations.length
    ∧ (∀ j loc, locations.get? j = some loc → loc.id ≠ u.id →
        (handleLocationUpdate locations u).get? j = some loc)
    ∧ (∃ j loc, locations.get? j = some loc ∧ loc.id = u.id
        ∧ (handleLocationUpdate locations u).get? j = some u) := by
  induction locations with
  | nil => simp at h
  | cons l ls ih =>
    rw [handleLocationUpdate_cons]
    by_cases hl : l.id = u.id
    · rw [if_pos hl]
      refine ⟨by simp, ?_, ⟨0, l, by simp, hl, by simp⟩⟩
      intro j loc hj hne
      cases j with
      | zero =>
        have : l = loc := by simpa using hj
        exact absurd (this ▸ hl) hne
      | succ j => simpa using hj
    · rw [if_neg hl]
      obtain ⟨hlen, hframe, j, loc, hj, hid, hres⟩ := ih (exists_match_tail h hl)
      refine ⟨by simp [hlen], ?_, ⟨j + 1, loc, by simpa using hj, hid, by simpa using hres⟩⟩
      intro j' loc' hj' hne
      cases j' with
      | zero => simpa using hj'
      | succ j' =>
        simp only [List.get?_cons_succ] at hj' ⊢
        exact hframe j' loc' hj' hne

/-- C4.  For every collection and updated record: when no existing record
has the matching id, the later revision appends the record (upsert) while
the earlier revision leaves the collection unchanged, so in both revisions
every existing record is left byte-for-byte intact; when the id does match,
the later revision keeps the length, leaves every record with a different id
at its position, and holds the updated record wholesale at a position where
the id matched, and the earlier revision maps every position to either the
wholesale replacement (on an id match) or the untouched original record. -/
theorem update_frame_and_replace :
    (∀ (locations : List LocationRecord) (u : LocationRecord),
        (∀ loc ∈ locations, loc.id ≠ u.id) →
        handleLocationUpdate locations u = locations ++ [u]
        ∧ handleLocationUpdateEarly locations u = locations)
    ∧ (∀ (locations : List LocationRecord) (u : LocationRecord),
        (∃ loc ∈ locations, loc.id = u.id) →
        (handleLocationUpdate locations u).length = locations.length
        ∧ (∀ j loc, locations.get? j = some loc → loc.id ≠ u.id →
            (handleLocationUpdate locations u).get? j = some loc)
        ∧ (∃ j loc, locations.get? j = some loc ∧ loc.id = u.id
            ∧ (handleLocationUpdate locations u).get? j = some u))
    ∧ (∀ (locations : List LocationRecord) (u : LocationRecord) (j : Nat),
        (handleLocationUpdateEarly locations u).get? j =
          (locations.get? j).map (fun loc => if loc.id = u.id then u else loc)) := by
  refine ⟨fun locations u h => ⟨update_missing locations u h, updateEarly_missing locations u h⟩,
    update_matched, ?_⟩
  intro locations u j
  simp only [handleLocationUpdateEarly, List.get?_map]
  cases locations.get? j with
  | none => rfl
  | some loc =>
    by_cases hl : loc.id = u.id
    · simp [hl]
    · simp [hl, beq_eq_false_iff_ne.mpr hl]

/-- A record whose id misses every id in [demoLoc]. -/
def demoUpdMiss : LocationRecord := { demoLoc with id := 2, name := "Bar" }

/-- A record whose id matches demoLoc. -/
def demoUpdHit : LocationRecord := { demoLoc with name := "Bar" }

/-- Witness for C4: the theorem applied at concrete inputs. -/
theorem update_frame_witness :
    (handleLocationUpdate [demoLoc] demoUpdMiss = [demoLoc] ++ [demoUpdMiss]
      ∧ handleLocationUpdateEarly [demoLoc] demoUpdMiss = [demoLoc])
    ∧ (handleLocationUpdate [demoLoc] demoUpdHit).length = [demoLoc].length :=
  ⟨update_frame_and_replace.1 [demoLoc] demoUpdMiss (by decide),
   (update_frame_and_replace.2.1 [demoLoc] demoUpdHit ⟨demoLoc, by simp, rfl⟩).1⟩

/-- C5.  Performing create (the earlier-revision map click, which appends a
new record whose id is the fresh Date.now() value) immediately followed by
delete of that same id returns the collection to its prior content. -/
theorem create_then_delete_restores (locations : List LocationRecord) (t : Nat)
    (pos : Int × Int) (hfresh : ∀ loc ∈ locations, loc.id ≠ t) :
    handleLocationDelete (handleMapClickEarly locations (mkNewLocationEarly t pos))
      (mkNewLocationEarly t pos).id = locations := by
  unfold handleLocationDelete handleMapClickEarly
  rw [List.filter_append]
  have h1 : locations.filter (fun loc => loc.id != (mkNewLocationEarly t pos).id)
      = locations := by
    apply List.filter_eq_self.mpr
    intro loc hm
    simpa [mkNewLocationEarly] using hfresh loc hm
  have h2 : [mkNewLocationEarly t pos].filter
      (fun loc => loc.id != (mkNewLocationEarly t pos).id) = [] := by
    simp
  rw [h1, h2, List.append_nil]

/-- Witness for C5: the theorem applied at a concrete collection. -/
theorem create_then_delete_witness :
    handleLocationDelete (handleMapClickEarly [demoLoc] (mkNewLocationEarly 2 (0, 0)))
      (mkNewLocationEarly 2 (0, 0)).id = [demoLoc] :=
  create_then_delete_restores [demoLoc] 2 (0, 0) (by decide)

lemma update_matched_ids (locations : List LocationRecord) (u : LocationRecord)
    (h : ∃ loc ∈ locations, loc.id = u.id) :
    (handleLocationUpdate locations u).map LocationRecord.id
      = locations.map LocationRecord.id := by
  induction locations with
  | nil => simp at h
  | cons l ls ih =>
    rw [handleLocationUpdate_cons]
    by_cases hl : l.id = u.id
    · rw [if_pos hl]
      simp [hl]
    · rw [if_neg hl]
      simp [ih (exists_match_tail h hl)]

lemma updateEarly_ids (locations : List LocationRecord) (u : LocationRecord) :
    (handleLocationUpdateEarly locations u).map LocationRecord.id
      = locations.map LocationRecord.id := by
  induction locations with
  | nil => rfl
  | cons l ls ih =>
    simp only [handleLocationUpdateEarly, List.map_cons] at ih ⊢
    rw [ih]
    by_cases hl : l.id = u.id
    · simp [hl]
    · simp [beq_eq_false_iff_ne.mpr hl]

/-- C6.  A record created by an admin map click carries id equal to the
fresh Date.now() value t; whenever t is later than the creation stamp of
every record already in the collection, that id differs from every existing
id (both revisions build the new record the same way up to the category
shape).  The id is immutable afterwards: an update whose id matches an
existing record preserves the full id sequence of the collection in the
later revision, and unconditionally in the earlier revision. -/
theorem create_id_fresh_update_preserves :
    (∀ (locations : List LocationRecord) (t : Nat) (pos : Int × Int),
        (∀ loc ∈ locations, loc.id < t) →
        ∀ loc ∈ locations,
          loc.id ≠ (mkNewLocation t pos).id ∧ loc.id ≠ (mkNewLocationEarly t pos).id)
    ∧ (∀ (locations : List LocationRecord) (u : LocationRecord),
        (∃ loc ∈ locations, loc.id = u.id) →
        (handleLocationUpdate locations u).map LocationRecord.id
          = locations.map LocationRecord.id)
    ∧ (∀ (locations : List LocationRecord) (u : LocationRecord),
        (handleLocationUpdateEarly locations u).map LocationRecord.id
          = locations.map LocationRecord.id) := by
  refine ⟨?_, update_matched_ids, updateEarly_ids⟩
  intro locations t pos hbound loc hm
  exact ⟨Nat.ne_of_lt (hbound loc hm), Nat.ne_of_lt (hbound loc hm)⟩

/-- Witness for C6: the theorem applied at a concrete collection and time. -/
theorem create_id_fresh_witness :
    (demoLoc.id ≠ (mkNewLocation 5 (0, 0)).id
      ∧ demoLoc.id ≠ (mkNewLocationEarly 5 (0, 0)).id)
    ∧ (handleLocationUpdate [demoLoc] demoUpdHit).map LocationRecord.id
        = [demoLoc].map LocationRecord.id :=
  ⟨create_id_fresh_update_preserves.1 [demoLoc] 5 (0, 0) (by decide) demoLoc (by simp),
   create_id_fresh_update_preserves.2.1 [demoLoc] demoUpdHit ⟨demoLoc, by simp, rfl⟩⟩

/-- The record built on save by the handleSubmit of the (never rendered)
LocationEditor component of the later revision (App.jsx lines 968-977):
category: categories.length > 0 ? categories : [Food]. -/
def handleSubmitEditor (loc : LocationRecord) (nm descr : String)
    (categories : List String) (em : String) : LocationRecord :=
  { loc with
    name := nm
    description := descr
    category := CatField.multi (if categories.length > 0 then categories else ["Food"])
    emoji := em }

/-- The record built on save by the inline location-editor form that the
later revision actually renders (App.jsx lines 1539-1548):
category: categories, passed through with no default. -/
def handleSubmitInline (selectedLocation : LocationRecord) (nm descr : String)
    (categories : List String) (em : String) : LocationRecord :=
  { selectedLocation with
    name := nm
    description := descr
    category := CatField.multi categories
    emoji := em }

/-- Counterexample for C3 as stated: saving through the rendered location
editor with every category selection cleared stores the empty category list,
not the single-category default. -/
theorem inline_editor_empty_category_cex :
    catList (handleSubmitInline demoLoc "Cafe" "Nice coffee" [] "☕").category = []
    ∧ handleLocationUpdate [demoLoc] (handleSubmitInline demoLoc "Cafe" "Nice coffee" [] "☕")
        = [handleSubmitInline demoLoc "Cafe" "Nice coffee" [] "☕"] := by
  constructor
  · rfl
  · decide

/-- C3 amended.  The LocationEditor handleSubmit (a save path the later
revision defines but never renders) does enforce the invariant: the saved
category set is non-empty, and equals the single-category default [Food]
when the admin clears every selection; the rendered inline editor form has
no such default. -/
theorem editor_category_nonempty_amended :
    ∀ (loc : LocationRecord) (nm descr : String) (categories : List String) (em : String),
      catList (handleSubmitEditor loc nm descr categories em).category ≠ []
      ∧ (categories = [] →
          (handleSubmitEditor loc nm descr categories em).category
            = CatField.multi ["Food"]) := by
  intro loc nm descr categories em
  constructor
  · cases categories with
    | nil => simp [handleSubmitEditor, catList]
    | cons c cs => simp [handleSubmitEditor, catList]
  · rintro rfl
    rfl

/-- Witness for the amended C3: the theorem applied at a concrete save with
all categories cleared. -/
theorem editor_category_nonempty_witness :
    catList (handleSubmitEditor demoLoc "Cafe" "d" [] "☕").category ≠ []
    ∧ (handleSubmitEditor demoLoc "Cafe" "d" [] "☕").category = CatField.multi ["Food"] :=
  ⟨(editor_category_nonempty_amended demoLoc "Cafe" "d" [] "☕").1,
   (editor_category_nonempty_amended demoLoc "Cafe" "d" [] "☕").2 rfl⟩

/-- JSON string literal for the model serializer; escaping is not modelled,
matching JSON.stringify on the quote-free strings this development stores. -/
def jsonStr (s : String) : String := "\"" ++ s ++ "\""

/-- Serialization of the category field, string or array shaped. -/
def serializeCategory : CatField → String
  | CatField.single c => jsonStr c
  | CatField.multi cs => "[" ++ String.intercalate "," (cs.map jsonStr) ++ "]"

/-- Model of JSON.stringify for one record; the brace characters of the
object literal are written with hexadecimal escapes. -/
def serializeLocation (loc : LocationRecord) : String :=
  "\x7b\"id\":" ++ toString loc.id
    ++ ",\"position\":[" ++ toString loc.position.1 ++ "," ++ toString loc.position.2 ++ "]"
    ++ ",\"name\":" ++ jsonStr loc.name
    ++ ",\"description\":" ++ jsonStr loc.description
    ++ ",\"category\":" ++ serializeCategory loc.category
    ++ ",\"emoji\":" ++ jsonStr loc.emoji ++ "\x7d"

/-- Model of JSON.stringify(locations). -/
def serializeLocations (locations : List LocationRecord) : String :=
  "[" ++ String.intercalate "," (locations.map serializeLocation) ++ "]"

/-- The persistence-relevant application state: the in-memory collection,
the admin flag, and the localStorage value under the key locations (none
models an absent key). -/
structure AppState where
  locations : List LocationRecord
  isAdmin : Bool
  storage : Option String
deriving DecidableEq, Repr

/-- The save effect of the later revision (App.jsx lines 837-864): React
runs it after every change of locations or isAdmin; it writes the
serialized collection when locations.length > 0 && isAdmin and otherwise
leaves the stored blob untouched. -/
def runSaveEffect (s : AppState) : AppState :=
  if decide (s.locations.length > 0) && s.isAdmin then
    { s with storage := some (serializeLocations s.locations) }
  else s

/-- The save effect of the earlier revision (App.jsx lines 69-102): writes
whenever locations.length > 0, with no admin scoping. -/
def runSaveEffectEarly (s : AppState) : AppState :=
  if decide (s.locations.length > 0) then
    { s with storage := some (serializeLocations s.locations) }
  else s

/-- One UI event of the later revision followed by the save effect. -/
inductive Step : AppState → AppState → Prop where
  | create (s : AppState) (newLoc : LocationRecord) :
      Step s (runSaveEffect { s with locations := s.locations ++ [newLoc] })
  | update (s : AppState) (u : LocationRecord) :
      Step s (runSaveEffect { s with locations := handleLocationUpdate s.locations u })
  | delete (s : AppState) (id : Nat) :
      Step s (runSaveEffect { s with locations := handleLocationDelete s.locations id })
  | login (s : AppState) :
      Step s (runSaveEffect { s with isAdmin := true })
  | logout (s : AppState) :
      Step s (runSaveEffect { s with isAdmin := false })
  | hydrate (s : AppState) (locs : List LocationRecord) :
      Step s (runSaveEffect { s with locations := locs })

/-- Later-revision states observed after the save effect has run; the
initial constructor is generous about the pre-effect state. -/
inductive Reachable : AppState → Prop where
  | init (locs : List LocationRecord) (admin : Bool) (st : Option String) :
      Reachable (runSaveEffect ⟨locs, admin, st⟩)
  | step {s t : AppState} : Reachable s → Step s t → Reachable t

/-- One UI event of the earlier revision followed by its save effect. -/
inductive StepEarly : AppState → AppState → Prop where
  | create (s : AppState) (newLoc : LocationRecord) :
      StepEarly s (runSaveEffectEarly { s with locations := s.locations ++ [newLoc] })
  | update (s : AppState) (u : LocationRecord) :
      StepEarly s (runSaveEffectEarly { s with locations := handleLocationUpdateEarly s.locations u })
  | delete (s : AppState) (id : Nat) :
      StepEarly s (runSaveEffectEarly { s with locations := handleLocationDelete s.locations id })
  | login (s : AppState) :
      StepEarly s (runSaveEffectEarly { s with isAdmin := true })
  | logout (s : AppState) :
      StepEarly s (runSaveEffectEarly { s with isAdmin := false })
  | hydrate (s : AppState) (locs : List LocationRecord) :
      StepEarly s (runSaveEffectEarly { s with locations := locs })

/-- Earlier-revision states observed after the save effect has run. -/
inductive ReachableEarly : AppState → Prop where
  | init (locs : List LocationRecord) (admin : Bool) (st : Option String) :
      ReachableEarly (runSaveEffectEarly ⟨locs, admin, st⟩)
  | step {s t : AppState} : ReachableEarly s → StepEarly s t → ReachableEarly t

lemma runSaveEffect_invariant (s : AppState) :
    (runSaveEffect s).locations ≠ [] → (runSaveEffect s).isAdmin = true →
    (runSaveEffect s).storage = some (serializeLocations (runSaveEffect s).locations) := by
  unfold runSaveEffect
  by_cases h : (decide (s.locations.length > 0) && s.isAdmin) = true
  · rw [if_pos h]
    intro _ _
    rfl
  · rw [if_neg h]
    intro hne hadm
    exact absurd (by simp [List.length_pos.mpr hne, hadm]) h

lemma runSaveEffectEarly_invariant (s : AppState) :
    (runSaveEffectEarly s).locations ≠ [] →
    (runSaveEffectEarly s).storage
      = some (serializeLocations (runSaveEffectEarly s).locations) := by
  unfold runSaveEffectEarly
  by_cases h : (decide (s.locations.length > 0)) = true
  · rw [if_pos h]
    intro _
    rfl
  · rw [if_neg h]
    intro hne
    exact absurd (by simp [List.length_pos.mpr hne]) h

lemma reachable_post_effect {s : AppState} (h : Reachable s) :
    ∃ s0, s = runSaveEffect s0 := by
  induction h with
  | init locs admin st => exact ⟨⟨locs, admin, st⟩, rfl⟩
  | step _ hs _ => cases hs <;> exact ⟨_, rfl⟩

lemma reachableEarly_post_effect {s : AppState} (h : ReachableEarly s) :
    ∃ s0, s = runSaveEffectEarly s0 := by
  induction h with
  | init locs admin st => exact ⟨⟨locs, admin, st⟩, rfl⟩
  | step _ hs _ => cases hs <;> exact ⟨_, rfl⟩

/-- C2 amended.  For every reachable state with the save condition met --
the collection non-empty and, in the later revision, an admin session -- the
persisted blob is exactly the JSON serialization of the full current
in-memory collection. -/
theorem save_mirrors_collection_amended :
    (∀ s : AppState, Reachable s → s.locations ≠ [] → s.isAdmin = true →
      s.storage = some (serializeLocations s.locations))
    ∧ (∀ s : AppState, ReachableEarly s → s.locations ≠ [] →
      s.storage = some (serializeLocations s.locations)) := by
  constructor
  · intro s hr
    obtain ⟨s0, rfl⟩ := reachable_post_effect hr
    exact runSaveEffect_invariant s0
  · intro s hr
    obtain ⟨s0, rfl⟩ := reachableEarly_post_effect hr
    exact runSaveEffectEarly_invariant s0

/-- The later-revision state after an admin session saves one record. -/
def stateOneSaved : AppState := runSaveEffect ⟨[demoLoc], true, none⟩

/-- The state after that admin then deletes the only record: the save
effect skips the now empty collection. -/
def stateAfterDeleteAll : AppState :=
  runSaveEffect
    { stateOneSaved with
      locations := handleLocationDelete stateOneSaved.locations demoLoc.id }

/-- Counterexample for C2 as stated: a reachable later-revision state inside
an admin session whose collection just mutated to empty, while the persisted
blob still holds the stale one-record serialization, not the serialization
of the current (empty) collection. -/
theorem save_claim_counterexample :
    Reachable stateAfterDeleteAll
    ∧ stateAfterDeleteAll.isAdmin = true
    ∧ stateAfterDeleteAll.locations = []
    ∧ stateAfterDeleteAll.storage
        ≠ some (serializeLocations stateAfterDeleteAll.locations) := by
  refine ⟨Reachable.step (Reachable.init [demoLoc] true none)
      (Step.delete stateOneSaved demoLoc.id), ?_, ?_, ?_⟩
  · decide
  · decide
  · decide

/-- Witness for the amended C2: the invariant applied at concrete reachable
states of both revisions. -/
theorem save_mirrors_witness :
    stateOneSaved.storage = some (serializeLocations stateOneSaved.locations)
    ∧ (runSaveEffectEarly ⟨[demoLoc], false, none⟩).storage
        = some (serializeLocations (runSaveEffectEarly ⟨[demoLoc], false, none⟩).locations) :=
  ⟨save_mirrors_collection_amended.1 stateOneSaved
      (Reachable.init [demoLoc] true none) (by decide) (by decide),
   save_mirrors_collection_amended.2 (runSaveEffectEarly ⟨[demoLoc], false, none⟩)
      (ReachableEarly.init [demoLoc] false none) (by decide)⟩

/-- Result of the asynchronous seed fetch of /locations.json: the locations
field of the parsed document, or a failed fetch. -/
inductive FetchResult where
  | success (locations : List LocationRecord)
  | failure
deriving DecidableEq, Repr

/-- JS truthiness of a localStorage.getItem result: null and the empty
string are falsy. -/
def jsTruthyStr : Option String → Bool
  | none => false
  | some s => !s.isEmpty

/-- The load effect of the later revision (App.jsx lines 780-797),
parameterized by a model of JSON.parse where none models a synchronous
throw: the persisted blob is used only when the isAdminSession marker equals
the string true and the blob is truthy; otherwise the seed fetch is used,
and a failed fetch is logged leaving the collection empty.  The error value
models the unguarded JSON.parse throw escaping load. -/
def loadLocations (parse : String → Option (List LocationRecord))
    (storage session : Option String) (seed : FetchResult) :
    Except Unit (List LocationRecord) :=
  if (session == some "true") && jsTruthyStr storage then
    match parse (storage.getD "") with
    | some locs => Except.ok locs
    | none => Except.error ()
  else
    match seed with
    | FetchResult.success locs => Except.ok locs
    | FetchResult.failure => Except.ok []

/-- The load effect of the earlier revision (App.jsx lines 56-66): the same
chain without the session check. -/
def loadLocationsEarly (parse : String → Option (List LocationRecord))
    (storage : Option String) (seed : FetchResult) :
    Except Unit (List LocationRecord) :=
  if jsTruthyStr storage then
    match parse (storage.getD "") with
    | some locs => Except.ok locs
    | none => Except.error ()
  else
    match seed with
    | FetchResult.success locs => Except.ok locs
    | FetchResult.failure => Except.ok []

/-- C7.  Load checks the local persistent store first and uses the persisted
collection exactly when it is present (truthy) and, in the later revision,
the admin-session marker is present; in every other case it falls back to
the seed resource and takes its locations field, and when the seed fetch
fails the collection stays empty, with no retry (the function returns once;
the logging side effect is outside the embedding). -/
theorem load_fallback_spec :
    (∀ (parse : String → Option (List LocationRecord)) (blob : String)
        (seed : FetchResult) (locs : List LocationRecord),
      jsTruthyStr (some blob) = true → parse blob = some locs →
      loadLocations parse (some blob) (some "true") seed = Except.ok locs)
    ∧ (∀ (parse : String → Option (List LocationRecord))
        (storage session : Option String) (seed : FetchResult),
      ((session == some "true") && jsTruthyStr storage) = false →
      loadLocations parse storage session seed
        = match seed with
          | FetchResult.success locs => Except.ok locs
          | FetchResult.failure => Except.ok [])
    ∧ (∀ (parse : String → Option (List LocationRecord)) (blob : String)
        (seed : FetchResult) (locs : List LocationRecord),
      jsTruthyStr (some blob) = true → parse blob = some locs →
      loadLocationsEarly parse (some blob) seed = Except.ok locs)
    ∧ (∀ (parse : String → Option (List LocationRecord)) (seed : FetchResult),
      loadLocationsEarly parse none seed
        = match seed with
          | FetchResult.success locs => Except.ok locs
          | FetchResult.failure => Except.ok []) := by
  refine ⟨?_, ?_, ?_, ?_⟩
  · intro parse blob seed locs htr hp
    simp [loadLocations, htr, hp]
  · intro parse storage session seed hcond
    simp [loadLocations, hcond]
  · intro parse blob seed locs htr hp
    simp [loadLocationsEarly, htr, hp]
  · intro parse seed
    simp [loadLocationsEarly, jsTruthyStr]

/-- A parse model that succeeds with a fixed collection. -/
def parseConst : String → Option (List LocationRecord) := fun _ => some [demoLoc]

/-- Witness for C7: the theorem applied at concrete stores, sessions and
seeds. -/
theorem load_fallback_witness :
    loadLocations parseConst (some "blob") (some "true") FetchResult.failure
      = Except.ok [demoLoc]
    ∧ loadLocations parseConst none none (FetchResult.success [demoLoc])
      = Except.ok [demoLoc]
    ∧ loadLocationsEarly parseConst (some "blob") FetchResult.failure
      = Except.ok [demoLoc]
    ∧ loadLocationsEarly parseConst none FetchResult.failure = Except.ok [] :=
  ⟨load_fallback_spec.1 parseConst "blob" FetchResult.failure [demoLoc] (by decide) rfl,
   load_fallback_spec.2.1 parseConst none none (FetchResult.success [demoLoc]) (by decide),
   load_fallback_spec.2.2.1 parseConst "blob" FetchResult.failure [demoLoc] (by decide) rfl,
   load_fallback_spec.2.2.2 parseConst FetchResult.failure⟩

/-- A model of JSON.parse on a blob that is not well-formed JSON: parsing
it throws. -/
def parseFailAll : String → Option (List LocationRecord) := fun _ => none

/-- Counterexample for C8 as stated: in the later revision a persisted blob
that exists but is malformed does not make load throw when the admin-session
marker is absent; the blob is ignored and the seed fallback succeeds. -/
theorem parse_unguarded_cex :
    loadLocations parseFailAll (some "not well formed") none
      (FetchResult.success [demoLoc]) = Except.ok [demoLoc] := rfl

/-- C8 amended.  When load reaches the persisted blob -- the blob truthy,
and in the later revision the admin-session marker also present -- and the
blob is not well-formed JSON, load throws synchronously during parse: there
is no error branch treating malformed data as absent and no fall back to
the seed resource. -/
theorem parse_unguarded_amended :
    (∀ (parse : String → Option (List LocationRecord)) (blob : String)
        (seed : FetchResult),
      jsTruthyStr (some blob) = true → parse blob = none →
      loadLocationsEarly parse (some blob) seed = Except.error ())
    ∧ (∀ (parse : String → Option (List LocationRecord)) (blob : String)
        (seed : FetchResult),
      jsTruthyStr (some blob) = true → parse blob = none →
      loadLocations parse (some blob) (some "true") seed = Except.error ()) := by
  constructor
  · intro parse blob seed htr hp
    simp [loadLocationsEarly, htr, hp]
  · intro parse blob seed htr hp
    simp [loadLocations, htr, hp]

/-- Witness for the amended C8: a concrete malformed blob on the parse path
of each revision. -/
theorem parse_unguarded_witness :
    loadLocationsEarly parseFailAll (some "bad blob") (FetchResult.success [demoLoc])
      = Except.error ()
    ∧ loadLocations parseFailAll (some "bad blob") (some "true")
        (FetchResult.success [demoLoc]) = Except.error () :=
  ⟨parse_unguarded_amended.1 parseFailAll "bad blob" (FetchResult.success [demoLoc])
      (by decide) rfl,
   parse_unguarded_amended.2 parseFailAll "bad blob" (FetchResult.success [demoLoc])
      (by decide) rfl⟩

/-- A stored record as the JSON sources might deliver it: name and
description may be absent (null or undefined). -/
structure RawLocation where
  id : Nat
  position : Int × Int
  name : Option String
  description : Option String
  category : CatField
  emoji : String
deriving DecidableEq, Repr

/-- The text dimension evaluated on a raw record, modelling the JS
evaluation order: name.toLowerCase() throws (none) when name is absent, and
the logical OR short-circuits, so description.toLowerCase() runs only when
the name test is false. -/
def rawMatchesSearch (loc : RawLocation) (searchTerm : String) : Option Bool :=
  match loc.name with
  | none => none
  | some n =>
    if jsIncludes (jsToLower n) (jsToLower searchTerm) then some true
    else
      match loc.description with
      | none => none
      | some d => some (jsIncludes (jsToLower d) (jsToLower searchTerm))

/-- The category dimension on a raw record; it never throws. -/
def rawMatchesCategory (loc : RawLocation) (selectedCategories : List String) : Bool :=
  selectedCategories.isEmpty ||
  (catList loc.category).any (fun cat => selectedCategories.contains cat)

/-- locations.filter over raw records: a throw in the callback aborts the
whole filter. -/
def rawFilteredLocations : List RawLocation → String → List String →
    Option (List RawLocation)
  | [], _, _ => some []
  | loc :: rest, searchTerm, selectedCategories =>
    match rawMatchesSearch loc searchTerm with
    | none => none
    | some ms =>
      match rawFilteredLocations rest searchTerm selectedCategories with
      | none => none
      | some tail =>
        some (if ms && rawMatchesCategory loc selectedCategories then loc :: tail else tail)

/-- A raw record with absent name and description. -/
def badRawLoc : RawLocation :=
  { id := 0, position := (0, 0), name := none, description := none,
    category := CatField.multi ["Food"], emoji := "📍" }

/-- A raw record with both text fields present. -/
def goodRawLoc : RawLocation :=
  { id := 1, position := (0, 0), name := some "Cafe", description := some "d",
    category := CatField.multi ["Food"], emoji := "☕" }

/-- C10.  The filter is total under the precondition that every record has
both text fields present: then no record reaches the error branch and the
filter returns a collection.  Outside the precondition the filter can fail:
on a collection holding a record with absent name and description it throws
instead of excluding or including the record. -/
theorem rawFilter_total_iff_fields_present :
    (∀ (locations : List RawLocation) (searchTerm : String)
        (selectedCategories : List String),
      (∀ loc ∈ locations, loc.name.isSome = true ∧ loc.description.isSome = true) →
      (rawFilteredLocations locations searchTerm selectedCategories).isSome = true)
    ∧ rawFilteredLocations [badRawLoc] "" [] = none := by
  constructor
  · intro locations searchTerm selectedCategories h
    induction locations with
    | nil => rfl
    | cons loc rest ih =>
      obtain ⟨hn, hd⟩ := h loc (List.mem_cons_self loc rest)
      have hrest := ih (fun l hm => h l (List.mem_cons_of_mem loc hm))
      have hms : (rawMatchesSearch loc searchTerm).isSome = true := by
        unfold rawMatchesSearch
        cases hname : loc.name with
        | none => rw [hname] at hn; simp at hn
        | some n =>
          by_cases hin : jsIncludes (jsToLower n) (jsToLower searchTerm) = true
          · simp [hin]
          · cases hdesc : loc.description with
            | none => rw [hdesc] at hd; simp at hd
            | some d => simp [hin, hdesc]
      obtain ⟨ms, hms2⟩ := Option.isSome_iff_exists.mp hms
      obtain ⟨tail, htail⟩ := Option.isSome_iff_exists.mp hrest
      simp [rawFilteredLocations, hms2, htail]
  · rfl

/-- Witness for C10: the totality direction applied at a concrete
collection satisfying the precondition. -/
theorem rawFilter_total_witness :
    (rawFilteredLocations [goodRawLoc] "" []).isSome = true :=
  rawFilter_total_iff_fields_present.1 [goodRawLoc] "" [] (by decide)
